import Mathlib

/-!
Shallow embedding of the client-side board state and drag-and-drop logic of
the kanban web application (`src/App.tsx`, `src/components/TaskDetails.tsx`).

JavaScript objects keyed by column id are modelled as insertion-ordered
association lists `List (String × Column)`, which is exactly the order
`Object.entries` / `Object.fromEntries` observe for non-integer string keys.
Each asynchronous handler `const h = async (...) => { try { await api.f(...);
setX(...) } catch (e) { console.error(...) } }` is modelled as a pure function
taking the outcome of the awaited persistence call (`Except Unit β`) and
returning the new state together with the ordered trace of observable effects
(the persistence request, the local state application, error reporting).
-/

namespace Kanban

/-- Effects observable during one handler invocation, in program order. -/
inductive Ev where
  /-- the awaited persistence (API) call is issued -/
  | persist
  /-- the local React state is updated (`setMembers`/`setBoards`/`setColumns`/...) -/
  | localApply
  /-- an error is reported (`console.error` in the catch block) -/
  | errorLog
  /-- a blocking `alert(...)` is shown before any network call -/
  | alert
  /-- a JavaScript `TypeError` escapes (property access on `undefined`) -/
  | crash
  deriving DecidableEq

structure Attachment where
  id : String
  name : String
  url : String
  type : String
  size : Nat
  deriving DecidableEq

structure Comment where
  id : String
  text : String
  authorId : String
  createdAt : String
  attachments : List Attachment
  deriving DecidableEq

inductive Priority where
  | low
  | medium
  | high
  deriving DecidableEq

structure Task where
  id : String
  title : String
  description : String
  memberId : String
  startDate : String
  effort : Nat
  columnId : String
  priority : Priority
  requesterId : String
  boardId : String
  comments : List Comment
  deriving DecidableEq

structure Column where
  id : String
  boardId : String
  title : String
  tasks : List Task
  deriving DecidableEq

structure TeamMember where
  id : String
  name : String
  color : String
  deriving DecidableEq

/-- The `columns` state: a JavaScript object keyed by column id, modelled as an
insertion-ordered association list (the iteration order of string-keyed
objects). -/
abbrev Columns := List (String × Column)

structure Board where
  id : String
  title : String
  columns : Columns
  deriving DecidableEq

/-- `obj[k]`: first entry with the given key, if any. -/
def lookup (cols : Columns) (k : String) : Option Column :=
  (cols.find? (fun p => p.1 == k)).map Prod.snd

/-- `{...obj, [k]: v}` / `obj[k] = v`: replace the value at an existing key in
place (JavaScript objects keep the original key position), append when the key
is new. -/
def setEntry (cols : Columns) (k : String) (v : Column) : Columns :=
  match cols with
  | [] => [(k, v)]
  | p :: rest => if p.1 == k then (k, v) :: rest else p :: setEntry rest k v

/-- The actual insertion position used by `Array.prototype.splice(i, 0, x)`
on an array of length `len`: a negative `i` counts back from the end, clamped
to `0`; a non-negative `i` is clamped to `len`. -/
def spliceIdx (len : Nat) (i : Int) : Nat :=
  if i < 0 then (max ((len : Int) + i) 0).toNat else min i.toNat len

/-- `arr.splice(i, 0, x)` as insertion: never throws, for any integer `i`. -/
def spliceInsert (l : List Task) (i : Int) (x : Task) : List Task :=
  l.insertIdx (spliceIdx l.length i) x

/-- Number of tasks in a column carrying the given task id. -/
def occ (c : Column) (taskId : String) : Nat :=
  c.tasks.countP (fun t => t.id == taskId)

/-! ### Member handlers (`handleAddMember`, `handleRemoveMember`) -/

structure MemberState where
  members : List TeamMember
  selectedMember : Option String
  deriving DecidableEq

def handleAddMember (s : MemberState) (_member : TeamMember)
    (apiResult : Except Unit TeamMember) : MemberState × List Ev :=
  match apiResult with
  | .error _ => (s, [.persist, .errorLog])
  | .ok createdMember =>
    ({ members := s.members ++ [createdMember],
       selectedMember :=
         if s.selectedMember = none then some createdMember.id
         else s.selectedMember },
     [.persist, .localApply])

def handleRemoveMember (s : MemberState) (id : String)
    (apiResult : Except Unit Unit) : MemberState × List Ev :=
  match apiResult with
  | .error _ => (s, [.persist, .errorLog])
  | .ok _ =>
    ({ members := s.members.filter (fun m => ¬ (m.id == id)),
       selectedMember :=
         if s.selectedMember = some id then
           -- `members.length > 1 ? members[0].id : null`, over the
           -- pre-deletion list captured by the closure
           if s.members.length > 1 then s.members.head?.map TeamMember.id
           else none
         else s.selectedMember },
     [.persist, .localApply])

/-! ### Board handlers and board selection -/

structure BoardState where
  boards : List Board
  selectedBoard : Option String
  columns : Columns
  selectedMember : Option String
  deriving DecidableEq

def handleAddBoard (s : BoardState) (apiResult : Except Unit Board) :
    BoardState × List Ev :=
  match apiResult with
  | .error _ => (s, [.persist, .errorLog])
  | .ok createdBoard =>
    ({ s with boards := s.boards ++ [createdBoard],
              selectedBoard := some createdBoard.id,
              columns := createdBoard.columns },
     [.persist, .localApply])

def handleEditBoard (s : BoardState) (boardId : String) (title : String)
    (apiResult : Except Unit Unit) : BoardState × List Ev :=
  match apiResult with
  | .error _ => (s, [.persist, .errorLog])
  | .ok _ =>
    ({ s with boards := s.boards.map (fun b =>
         if b.id == boardId then { b with title := title } else b) },
     [.persist, .localApply])

def handleRemoveBoard (s : BoardState) (boardId : String)
    (apiResult : Except Unit Unit) : BoardState × List Ev :=
  if s.boards.length ≤ 1 then (s, [.alert])
  else
    match apiResult with
    | .error _ => (s, [.persist, .errorLog])
    | .ok _ =>
      let newBoards := s.boards.filter (fun b => ¬ (b.id == boardId))
      if s.selectedBoard = some boardId then
        match newBoards.head? with
        | some firstBoard =>
          ({ s with boards := newBoards,
                    selectedBoard := some firstBoard.id,
                    columns := firstBoard.columns },
           [.persist, .localApply])
        | none =>
          -- `newBoards[0].id` throws on an empty list; the surrounding catch
          -- logs the error, after `setBoards` has already been applied
          ({ s with boards := newBoards }, [.persist, .localApply, .errorLog])
      else ({ s with boards := newBoards }, [.persist, .localApply])

/-- The `useEffect` on `[selectedBoard, boards]`: when a board is selected and
found, the rendered columns are replaced by that board's columns. -/
def selectBoardEffect (s : BoardState) : BoardState :=
  match s.selectedBoard with
  | none => s
  | some bid =>
    match s.boards.find? (fun b => b.id == bid) with
    | none => s
    | some board => { s with columns := board.columns }

/-- `onSelectBoard = setSelectedBoard` followed by the effect above. -/
def selectBoard (s : BoardState) (boardId : String) : BoardState :=
  selectBoardEffect { s with selectedBoard := some boardId }

/-! ### Task handlers -/

def handleAddTask (columns : Columns) (selectedMember selectedBoard : Option String)
    (columnId : String) (newId : String) (today : String)
    (apiResult : Except Unit Task) : Columns × List Ev :=
  match selectedMember, selectedBoard with
  | some sm, some sb =>
    let _task : Task :=
      { id := newId, title := "New Task", description := "Task description",
        memberId := sm, startDate := today, effort := 1, columnId := columnId,
        priority := .medium, requesterId := sm, boardId := sb, comments := [] }
    match apiResult with
    | .error _ => (columns, [.persist, .errorLog])
    | .ok createdTask =>
      match lookup columns columnId with
      | some col =>
        (setEntry columns columnId { col with tasks := col.tasks ++ [createdTask] },
         [.persist, .localApply])
      | none =>
        -- `prev[columnId].tasks` throws inside the state updater
        (columns, [.persist, .crash])
  | _, _ => (columns, [])

def handleEditTask (columns : Columns) (task : Task)
    (apiResult : Except Unit Task) : Columns × List Ev :=
  match apiResult with
  | .error _ => (columns, [.persist, .errorLog])
  | .ok updatedTask =>
    (columns.map (fun p => (p.1, { p.2 with tasks := p.2.tasks.map (fun t =>
       if t.id == task.id then updatedTask else t) })),
     [.persist, .localApply])

def handleRemoveTask (columns : Columns) (taskId : String)
    (apiResult : Except Unit Unit) : Columns × List Ev :=
  match apiResult with
  | .error _ => (columns, [.persist, .errorLog])
  | .ok _ =>
    (columns.map (fun p => (p.1, { p.2 with tasks := p.2.tasks.filter (fun t =>
       ¬ (t.id == taskId)) })),
     [.persist, .localApply])

def handleCopyTask (columns : Columns) (task : Task) (newId : String)
    (apiResult : Except Unit Task) : Columns × List Ev :=
  let _newTask : Task :=
    { task with id := newId, title := task.title ++ " (Copy)", comments := [] }
  match apiResult with
  | .error _ => (columns, [.persist, .errorLog])
  | .ok createdTask =>
    match lookup columns task.columnId with
    | some col =>
      (setEntry columns task.columnId { col with tasks := col.tasks ++ [createdTask] },
       [.persist, .localApply])
    | none =>
      -- `prev[task.columnId].tasks` throws inside the state updater
      (columns, [.persist, .crash])

/-! ### Column handlers -/

def handleEditColumn (columns : Columns) (columnId : String) (title : String)
    (apiResult : Except Unit Unit) : Columns × List Ev :=
  match apiResult with
  | .error _ => (columns, [.persist, .errorLog])
  | .ok _ =>
    match lookup columns columnId with
    | some col => (setEntry columns columnId { col with title := title },
                   [.persist, .localApply])
    | none =>
      -- `{...prev[columnId], title}` on an unknown key would create a
      -- field-incomplete object; unreachable from the UI, which only passes
      -- ids of rendered columns
      (columns, [.persist, .localApply])

def handleRemoveColumn (columns : Columns) (columnId : String)
    (apiResult : Except Unit Unit) : Columns × List Ev :=
  match apiResult with
  | .error _ => (columns, [.persist, .errorLog])
  | .ok _ =>
    (columns.filter (fun p => ¬ (p.1 == columnId)), [.persist, .localApply])

def handleAddColumn (columns : Columns) (selectedBoard : Option String)
    (columnId : String) (apiResult : Except Unit Column) : Columns × List Ev :=
  match selectedBoard with
  | none => (columns, [])
  | some _ =>
    match apiResult with
    | .error _ => (columns, [.persist, .errorLog])
    | .ok createdColumn =>
      (setEntry columns columnId createdColumn, [.persist, .localApply])

/-! ### Drag-and-drop handlers -/

def handleColumnDragOver (draggedColumn : Option String) (targetColumnId : String)
    (columns : Columns) : Columns :=
  match draggedColumn with
  | none => columns
  | some dragged =>
    if dragged == targetColumnId then columns
    else
      let entries := columns
      match entries.findIdx? (fun p => p.1 == dragged),
            entries.findIdx? (fun p => p.1 == targetColumnId) with
      | some draggedIndex, some targetIndex =>
        match entries[draggedIndex]? with
        | some draggedEntry =>
          (entries.eraseIdx draggedIndex).insertIdx targetIndex draggedEntry
        | none => entries
      | _, _ => entries

structure DraggedTask where
  id : String
  sourceColumnId : String
  currentIndex : Nat
  deriving DecidableEq

def handleTaskDragOver (draggedTask : Option DraggedTask) (targetColumnId : String)
    (targetIndex : Int) (columns : Columns) (apiResult : Except Unit Unit) :
    Columns × List Ev :=
  match draggedTask with
  | none => (columns, [])
  | some dt =>
    match lookup columns dt.sourceColumnId, lookup columns targetColumnId with
    | some sourceColumn, some targetColumn =>
      match sourceColumn.tasks.find? (fun t => t.id == dt.id) with
      | none => (columns, [])
      | some taskToMove =>
        let updatedTask := { taskToMove with columnId := targetColumnId }
        match apiResult with
        | .error _ => (columns, [.persist, .errorLog])
        | .ok _ =>
          -- one `setColumns` call: remove from the source column, then insert
          -- into the (pre-removal snapshot of the) target column
          let afterRemove := setEntry columns dt.sourceColumnId
            { sourceColumn with
              tasks := sourceColumn.tasks.filter (fun t => ¬ (t.id == dt.id)) }
          let targetTasks := spliceInsert targetColumn.tasks targetIndex updatedTask
          (setEntry afterRemove targetColumnId { targetColumn with tasks := targetTasks },
           [.persist, .localApply])
    | _, _ => (columns, [])

/-! ### Comment creation (`handleAddComment` in `TaskDetails.tsx`) -/

def handleAddComment (editedTask : Task) (_newComment : Comment)
    (apiResult : Except Unit Comment) : Task × List Ev :=
  match apiResult with
  | .error _ => (editedTask, [.persist, .errorLog])
  | .ok savedComment =>
    ({ editedTask with comments := editedTask.comments ++ [savedComment] },
     [.persist, .localApply])

/-- A handler is pessimistic: with a failed persistence call the state is the
input state and the effect trace is exactly one of — nothing (a guard bailed
out before any call), a blocking alert (the action was rejected locally with
a user-visible error), or the persistence call followed by a surfaced error
(`console.error` in the catch block); in particular no local application ever
happens on failure, and whenever the call was issued the error is surfaced.
In every run any issued effect sequence starts with the persistence call
(unless the handler bailed out on a guard or rejected the action with an
alert). -/
def pessimistic {σ β : Type} (run : Except Unit β → σ × List Ev) (s₀ : σ) : Prop :=
  (run (.error ())).1 = s₀ ∧
  ((run (.error ())).2 = [] ∨ (run (.error ())).2 = [Ev.alert] ∨
    (run (.error ())).2 = [Ev.persist, Ev.errorLog]) ∧
  ∀ r, (run r).2.head? = some Ev.persist ∨ (run r).2 = [] ∨ (run r).2 = [Ev.alert]

/-! ### Helper lemmas -/

theorem lookup_setEntry_self (cols : Columns) (k : String) (v : Column) :
    lookup (setEntry cols k v) k = some v := by
  induction cols with
  | nil => simp [setEntry, lookup]
  | cons p rest ih =>
    by_cases h : p.1 == k
    · simp [setEntry, h, lookup]
    · simpa [setEntry, h, lookup] using ih

theorem lookup_setEntry_ne (cols : Columns) (k k' : String) (v : Column)
    (h : k' ≠ k) : lookup (setEntry cols k v) k' = lookup cols k' := by
  induction cols with
  | nil => simp [setEntry, lookup, Ne.symm h]
  | cons p rest ih =>
    by_cases hp : p.1 == k
    · have hpk : p.1 = k := by simpa using hp
      simp [setEntry, hp, lookup, hpk, Ne.symm h]
    · by_cases hp' : p.1 == k'
      · simp [setEntry, hp, lookup, hp']
      · simpa [setEntry, hp, lookup, hp'] using ih

theorem mem_setEntry (cols : Columns) (k : String) (v : Column)
    (p : String × Column) (hnd : (cols.map Prod.fst).Nodup)
    (hp : p ∈ setEntry cols k v) :
    p = (k, v) ∨ (p ∈ cols ∧ p.1 ≠ k) := by
  induction cols with
  | nil =>
    simp only [setEntry, List.mem_singleton] at hp
    exact Or.inl hp
  | cons q rest ih =>
    simp only [List.map_cons, List.nodup_cons] at hnd
    by_cases hq : q.1 == k
    · have hqk : q.1 = k := by simpa using hq
      simp only [setEntry, hq, if_pos] at hp
      rcases List.mem_cons.mp hp with h | h
      · exact Or.inl h
      · refine Or.inr ⟨List.mem_cons_of_mem _ h, fun hpk => hnd.1 ?_⟩
        rw [hqk, ← hpk]
        exact List.mem_map_of_mem Prod.fst h
    · simp only [setEntry, hq, if_neg] at hp
      rcases List.mem_cons.mp hp with h | h
      · subst h
        exact Or.inr ⟨List.mem_cons_self _ _, by simpa using hq⟩
      · rcases ih hnd.2 h with h' | h'
        · exact Or.inl h'
        · exact Or.inr ⟨List.mem_cons_of_mem _ h'.1, h'.2⟩

theorem keys_setEntry (cols : Columns) (k : String) (v : Column)
    (hk : k ∈ cols.map Prod.fst) :
    (setEntry cols k v).map Prod.fst = cols.map Prod.fst := by
  induction cols with
  | nil => simp at hk
  | cons q rest ih =>
    by_cases hq : q.1 == k
    · have hqk : q.1 = k := by simpa using hq
      simp [setEntry, hq, hqk]
    · have hqk : ¬ q.1 = k := by simpa using hq
      simp only [List.map_cons, List.mem_cons] at hk
      rcases hk with hk | hk
      · exact absurd hk.symm hqk
      · simp [setEntry, hq, ih hk]

theorem lookup_some_mem (cols : Columns) (k : String) (c : Column)
    (h : lookup cols k = some c) : (k, c) ∈ cols := by
  simp only [lookup, Option.map_eq_some'] at h
  obtain ⟨q, hq, hqc⟩ := h
  have hmem := List.mem_of_find?_eq_some hq
  have hpred := List.find?_some hq
  have hk : q.1 = k := by simpa using hpred
  have : q = (k, c) := by
    cases q
    simp_all
  rwa [this] at hmem

theorem lookup_some_key_mem (cols : Columns) (k : String) (c : Column)
    (h : lookup cols k = some c) : k ∈ cols.map Prod.fst :=
  List.mem_map.mpr ⟨(k, c), lookup_some_mem cols k c h, rfl⟩

theorem getElem?_insertIdx_self_eq {α : Type} (l : List α) (n : Nat) (x : α)
    (h : n ≤ l.length) : (l.insertIdx n x)[n]? = some x := by
  induction l generalizing n with
  | nil =>
    have hn0 : n = 0 := by simpa using h
    subst hn0
    simp
  | cons b t ih =>
    cases n with
    | zero => simp
    | succ m =>
      rw [List.insertIdx_succ_cons]
      simpa using ih m (by simpa using h)

theorem getElem?_insertIdx_lt {α : Type} (l : List α) (n k : Nat) (x : α)
    (h : k < n) : (l.insertIdx n x)[k]? = l[k]? := by
  induction l generalizing n k with
  | nil =>
    cases n with
    | zero => omega
    | succ m => simp
  | cons b t ih =>
    cases n with
    | zero => omega
    | succ m =>
      rw [List.insertIdx_succ_cons]
      cases k with
      | zero => simp
      | succ j => simpa using ih m j (by omega)

theorem getElem?_insertIdx_shift {α : Type} (l : List α) (n k : Nat) (x : α)
    (h : n ≤ k) (hn : n ≤ l.length) : (l.insertIdx n x)[k + 1]? = l[k]? := by
  induction l generalizing n k with
  | nil =>
    have hn0 : n = 0 := by simpa using hn
    subst hn0
    simp
  | cons b t ih =>
    cases n with
    | zero => simp
    | succ m =>
      rw [List.insertIdx_succ_cons]
      cases k with
      | zero => omega
      | succ j => simpa using ih m j (by omega) (by simpa using hn)

theorem perm_cons_eraseIdx {α : Type} (l : List α) (i : Nat) (a : α)
    (h : l[i]? = some a) : l.Perm (a :: l.eraseIdx i) := by
  induction l generalizing i with
  | nil => simp at h
  | cons b t ih =>
    cases i with
    | zero =>
      simp only [List.getElem?_cons_zero, Option.some_inj] at h
      subst h
      simp [List.Perm.refl]
    | succ j =>
      simp only [List.getElem?_cons_succ] at h
      have h1 : t.Perm (a :: t.eraseIdx j) := ih j h
      have h2 : (b :: t).eraseIdx (j + 1) = b :: t.eraseIdx j := rfl
      rw [h2]
      exact (h1.cons b).trans (List.Perm.swap a b _)

/-! ### Concrete fixtures used by witnesses and counterexamples -/

def sampleTask : Task :=
  { id := "t", title := "T", description := "", memberId := "m",
    startDate := "2024-01-01", effort := 1, columnId := "c", priority := .medium,
    requesterId := "m", boardId := "b", comments := [] }

def sampleColumnC : Column :=
  { id := "c", boardId := "b", title := "C", tasks := [sampleTask] }

def sampleColumns : Columns := [("c", sampleColumnC)]

def taskG1 : Task := { sampleTask with id := "t1", columnId := "g" }

def taskG2 : Task := { sampleTask with id := "t2", columnId := "g" }

def sampleColumnG : Column :=
  { id := "g", boardId := "b", title := "G", tasks := [taskG1, taskG2] }

def colsTwo : Columns := [("c", sampleColumnC), ("g", sampleColumnG)]

/-! ### Claim theorems -/

/-- C8: switching the selected board replaces the rendered columns with the
newly selected board's columns when that board id is found in the local board
list, leaves the rendered columns unchanged when the id is unknown, and in all
cases leaves `selectedMember` unchanged. -/
theorem select_board_swaps_columns_keeps_member (s : BoardState) (boardId : String) :
    (selectBoard s boardId).selectedMember = s.selectedMember ∧
    (selectBoard s boardId).columns =
      (match s.boards.find? (fun b => b.id == boardId) with
       | some board => board.columns
       | none => s.columns) := by
  unfold selectBoard selectBoardEffect
  cases h : s.boards.find? (fun b => b.id == boardId) <;> simp [h]

/-- C10: a successful member delete removes the member from the list; the
selection is untouched when the deleted member was not selected; when it was
selected, the new selection is the head of the pre-deletion list if that list
had two or more members (hence the deleted member's own id whenever it was
first) and null otherwise. -/
theorem remove_member_filters_and_reselects (s : MemberState) (id : String) :
    (handleRemoveMember s id (.ok ())).1.members
      = s.members.filter (fun m => ¬ (m.id == id)) ∧
    (s.selectedMember ≠ some id →
      (handleRemoveMember s id (.ok ())).1.selectedMember = s.selectedMember) ∧
    (s.selectedMember = some id →
      (handleRemoveMember s id (.ok ())).1.selectedMember =
        (if 1 < s.members.length then s.members.head?.map TeamMember.id else none)) ∧
    (∀ m0 rest, s.members = m0 :: rest → m0.id = id → s.selectedMember = some id →
      rest ≠ [] → (handleRemoveMember s id (.ok ())).1.selectedMember = some id) := by
  refine ⟨rfl, ?_, ?_, ?_⟩
  · intro h
    simp [handleRemoveMember, h]
  · intro h
    simp [handleRemoveMember, h]
  · intro m0 rest hm hid hsel hrest
    have hlen : 1 < s.members.length := by
      rw [hm]
      cases rest with
      | nil => exact absurd rfl hrest
      | cons _ _ => simp
    simp [handleRemoveMember, hsel, hlen, hm, hid, hrest]

/-- C10 witness: two members, the selected one is first and gets deleted; the
member list loses it, yet the selection still points at the deleted id. -/
theorem remove_member_filters_and_reselects_witness :
    (handleRemoveMember ⟨[⟨"a", "A", "red"⟩, ⟨"b", "B", "blue"⟩], some "a"⟩ "a"
       (.ok ())).1.selectedMember = some "a" ∧
    (handleRemoveMember ⟨[⟨"a", "A", "red"⟩, ⟨"b", "B", "blue"⟩], some "a"⟩ "a"
       (.ok ())).1.members = [⟨"b", "B", "blue"⟩] := by
  have h := remove_member_filters_and_reselects
    ⟨[⟨"a", "A", "red"⟩, ⟨"b", "B", "blue"⟩], some "a"⟩ "a"
  refine ⟨h.2.2.2 ⟨"a", "A", "red"⟩ [⟨"b", "B", "blue"⟩] rfl rfl rfl (by simp), ?_⟩
  rw [h.1]
  rfl

/-- C7: deleting a board when at most one exists is rejected with an alert
and no persistence call or state change; with two or more boards the
persistence call is issued first, and on success the board is removed and —
when it was the selected one — the head of the remaining list, a different
board, becomes selected. -/
theorem remove_last_board_rejected_else_reselect (s : BoardState) (boardId : String) :
    (s.boards.length ≤ 1 → ∀ r, handleRemoveBoard s boardId r = (s, [Ev.alert])) ∧
    (2 ≤ s.boards.length →
      (∀ r, (handleRemoveBoard s boardId r).2.head? = some Ev.persist) ∧
      (handleRemoveBoard s boardId (.ok ())).1.boards
        = s.boards.filter (fun b => ¬ (b.id == boardId)) ∧
      (s.selectedBoard = some boardId →
        ∀ fb, (s.boards.filter (fun b => ¬ (b.id == boardId))).head? = some fb →
          (handleRemoveBoard s boardId (.ok ())).1.selectedBoard = some fb.id ∧
          fb.id ≠ boardId ∧ fb ∈ s.boards)) := by
  constructor
  · intro hle r
    unfold handleRemoveBoard
    simp [hle]
  · intro hge
    have hgt : ¬ s.boards.length ≤ 1 := by omega
    refine ⟨?_, ?_, ?_⟩
    · intro r
      unfold handleRemoveBoard
      cases r <;> simp only [hgt, if_false] <;>
        · repeat' split
          all_goals rfl
    · unfold handleRemoveBoard
      simp only [hgt, if_false]
      repeat' split
      all_goals rfl
    · intro hsel fb hfb
      have hmem : fb ∈ s.boards.filter (fun b => ¬ (b.id == boardId)) :=
        List.mem_of_mem_head? (Option.mem_def.mpr hfb)
      have hfilter := List.mem_filter.mp hmem
      have hfbne : fb.id ≠ boardId := by simpa using hfilter.2
      refine ⟨?_, hfbne, hfilter.1⟩
      unfold handleRemoveBoard
      simp only [hgt, if_false, hsel, if_pos]
      rw [hfb]

def boardOne : Board := { id := "b1", title := "B1", columns := sampleColumns }

def boardTwo : Board := { id := "b2", title := "B2", columns := [] }

/-- C7 witness: with two boards and the selected one deleted, the other board
becomes selected; with a single board the delete is rejected with an alert. -/
theorem remove_last_board_rejected_else_reselect_witness :
    ((2 ≤ ([boardOne, boardTwo] : List Board).length) ∧
     ([boardOne] : List Board).length ≤ 1) ∧
    (handleRemoveBoard ⟨[boardOne, boardTwo], some "b1", sampleColumns, none⟩ "b1"
       (.ok ())).1.selectedBoard = some "b2" ∧
    handleRemoveBoard ⟨[boardOne], some "b1", sampleColumns, none⟩ "b1" (.ok ())
      = (⟨[boardOne], some "b1", sampleColumns, none⟩, [Ev.alert]) := by
  have h := remove_last_board_rejected_else_reselect
    ⟨[boardOne, boardTwo], some "b1", sampleColumns, none⟩ "b1"
  have h1 := remove_last_board_rejected_else_reselect
    ⟨[boardOne], some "b1", sampleColumns, none⟩ "b1"
  refine ⟨⟨by decide, by decide⟩, ?_, h1.1 (by decide) (.ok ())⟩
  exact ((h.2 (by decide)).2.2 rfl boardTwo (by decide)).1

/-- C9: a successful task edit replaces every occurrence of the edited id in
place, in whatever column it sits: all column keys, task-sequence lengths and
task-id orders are unchanged, and the task is never moved between columns —
even when the updated task's `columnId` names a different column. -/
theorem edit_task_replaces_in_place (cols : Columns) (task u : Task)
    (hid : u.id = task.id) :
    (handleEditTask cols task (.ok u)).1.map Prod.fst = cols.map Prod.fst ∧
    (handleEditTask cols task (.ok u)).1.length = cols.length ∧
    (∀ i : Nat, ((handleEditTask cols task (.ok u)).1[i]?).map
        (fun p => p.2.tasks.length) = (cols[i]?).map (fun p => p.2.tasks.length)) ∧
    (∀ i : Nat, ((handleEditTask cols task (.ok u)).1[i]?).map
        (fun p => p.2.tasks.map Task.id)
      = (cols[i]?).map (fun p => p.2.tasks.map Task.id)) ∧
    (∀ i : Nat, ((handleEditTask cols task (.ok u)).1[i]?).map
        (fun p => p.2.tasks)
      = (cols[i]?).map (fun p => p.2.tasks.map (fun t =>
          if t.id == task.id then u else t))) := by
  have hfun : ∀ t : Task, Task.id (if t.id == task.id then u else t) = t.id := by
    intro t
    by_cases h : t.id == task.id
    · have : t.id = task.id := by simpa using h
      simp [h, hid, this]
    · simp [h]
  refine ⟨?_, ?_, ?_, ?_, ?_⟩
  · show (cols.map _).map Prod.fst = cols.map Prod.fst
    rw [List.map_map]
    rfl
  · exact List.length_map _ _
  · intro i
    show ((cols.map _)[i]?).map _ = _
    rw [List.getElem?_map]
    cases cols[i]? <;> simp
  · intro i
    show ((cols.map _)[i]?).map _ = _
    rw [List.getElem?_map]
    cases h : cols[i]? with
    | none => rfl
    | some p =>
      show some ((p.2.tasks.map fun t => if t.id == task.id then u else t).map Task.id)
        = some (p.2.tasks.map Task.id)
      rw [List.map_map]
      exact congrArg some (List.map_congr_left (fun t _ => hfun t))
  · intro i
    show ((cols.map _)[i]?).map _ = _
    rw [List.getElem?_map]
    cases cols[i]? <;> rfl

/-- C9 witness: editing task `t` with an update whose `columnId` names column
`g` leaves it in column `c` at its position — only the stored object changes. -/
theorem edit_task_replaces_in_place_witness :
    (({ sampleTask with columnId := "g", title := "X" } : Task).id
       = sampleTask.id) ∧
    ((handleEditTask colsTwo sampleTask
        (.ok { sampleTask with columnId := "g", title := "X" })).1[0]?).map
      (fun p => p.2.tasks.map Task.id) = (colsTwo[0]?).map
      (fun p => p.2.tasks.map Task.id) ∧
    (handleEditTask colsTwo sampleTask
        (.ok { sampleTask with columnId := "g", title := "X" })).1.map Prod.fst
      = colsTwo.map Prod.fst := by
  have h := edit_task_replaces_in_place colsTwo sampleTask
    { sampleTask with columnId := "g", title := "X" } rfl
  exact ⟨rfl, h.2.2.2.1 0, h.1⟩

/-- C2 corrected: every create/update/delete handler is pessimistic, not
optimistic — the persistence call is issued first and the local state is
applied only after it succeeds; on failure the state is unchanged (so there
is nothing to roll back) and an error is surfaced: the failure trace is
exactly the persistence call followed by the error report, unless the
handler never reached the call (a guard bailed out, or the action was
rejected locally with an alert). -/
theorem mutations_persist_first_then_apply :
    (∀ s m, pessimistic (handleAddMember s m) s) ∧
    (∀ s i, pessimistic (handleRemoveMember s i) s) ∧
    (∀ s, pessimistic (handleAddBoard s) s) ∧
    (∀ s bid t, pessimistic (handleEditBoard s bid t) s) ∧
    (∀ s bid, pessimistic (handleRemoveBoard s bid) s) ∧
    (∀ cols sm sb cid nid d, pessimistic (handleAddTask cols sm sb cid nid d) cols) ∧
    (∀ cols task, pessimistic (handleEditTask cols task) cols) ∧
    (∀ cols tid, pessimistic (handleRemoveTask cols tid) cols) ∧
    (∀ cols task nid, pessimistic (handleCopyTask cols task nid) cols) ∧
    (∀ cols cid t, pessimistic (handleEditColumn cols cid t) cols) ∧
    (∀ cols cid, pessimistic (handleRemoveColumn cols cid) cols) ∧
    (∀ cols sb cid, pessimistic (handleAddColumn cols sb cid) cols) ∧
    (∀ dt tgt ti cols, pessimistic (handleTaskDragOver dt tgt ti cols) cols) ∧
    (∀ t c, pessimistic (handleAddComment t c) t) := by
  refine ⟨?_, ?_, ?_, ?_, ?_, ?_, ?_, ?_, ?_, ?_, ?_, ?_, ?_, ?_⟩ <;>
    · intros
      refine ⟨?_, ?_, fun r => ?_⟩ <;>
        · first
          | (cases r <;>
              · simp only [handleAddMember, handleRemoveMember, handleAddBoard,
                  handleEditBoard, handleRemoveBoard, handleAddTask, handleEditTask,
                  handleRemoveTask, handleCopyTask, handleEditColumn, handleRemoveColumn,
                  handleAddColumn, handleTaskDragOver, handleAddComment]
                repeat' split
                all_goals simp)
          | (simp only [handleAddMember, handleRemoveMember, handleAddBoard,
              handleEditBoard, handleRemoveBoard, handleAddTask, handleEditTask,
              handleRemoveTask, handleCopyTask, handleEditColumn, handleRemoveColumn,
              handleAddColumn, handleTaskDragOver, handleAddComment]
             repeat' split
             all_goals simp)

theorem column_dragover_perm_single (dc : Option String) (tgt : String)
    (cols : Columns) : (handleColumnDragOver dc tgt cols).Perm cols := by
  cases dc with
  | none => exact List.Perm.refl _
  | some dragged =>
    by_cases h : dragged == tgt
    · have hres : handleColumnDragOver (some dragged) tgt cols = cols := by
        unfold handleColumnDragOver
        simp [h]
      rw [hres]
    · cases hdi : cols.findIdx? (fun p => p.1 == dragged) with
      | none =>
        have hres : handleColumnDragOver (some dragged) tgt cols = cols := by
          unfold handleColumnDragOver
          simp [h, hdi]
        rw [hres]
      | some di =>
        cases hti : cols.findIdx? (fun p => p.1 == tgt) with
        | none =>
          have hres : handleColumnDragOver (some dragged) tgt cols = cols := by
            unfold handleColumnDragOver
            simp [h, hdi, hti]
          rw [hres]
        | some ti =>
          have hdilt : di < cols.length :=
            (List.findIdx?_eq_some_iff_findIdx_eq.mp hdi).1
          have htilt : ti < cols.length :=
            (List.findIdx?_eq_some_iff_findIdx_eq.mp hti).1
          have hde : cols[di]? = some cols[di] := List.getElem?_eq_getElem hdilt
          have hres : handleColumnDragOver (some dragged) tgt cols
              = (cols.eraseIdx di).insertIdx ti cols[di] := by
            unfold handleColumnDragOver
            simp [h, hdi, hti, hde]
          have herlen : (cols.eraseIdx di).length = cols.length - 1 :=
            List.length_eraseIdx_of_lt hdilt
          have hle : ti ≤ (cols.eraseIdx di).length := by omega
          rw [hres]
          exact (List.perm_insertIdx _ _ hle).trans
            (perm_cons_eraseIdx cols di cols[di] hde).symm

/-- C6: any sequence of column drag-over operations produces a permutation of
the original column entry sequence — no (id, column) entry is created,
duplicated or lost. -/
theorem column_reorder_sequence_is_permutation (ops : List (String × String))
    (cols : Columns) :
    (ops.foldl (fun cs op => handleColumnDragOver (some op.1) op.2 cs) cols).Perm
      cols := by
  induction ops generalizing cols with
  | nil => exact List.Perm.refl _
  | cons op rest ih =>
    exact (ih _).trans (column_dragover_perm_single (some op.1) op.2 cols)

/-- C5 corrected: the dragged column is removed and reinserted at the index
the target column occupied in the original sequence; when the dragged column
came from a later position the target ends up immediately after it, but when
it came from an earlier position the target ends up immediately before it
(dragging forward inserts after the target, not before). The operation is a
no-op when the dragged id equals the target id or when either id is not
present. -/
theorem column_dragover_lands_at_target_index (cols : Columns) (dc tgt : String)
    (di ti : Nat) (hne : dc ≠ tgt)
    (hdi : cols.findIdx? (fun p => p.1 == dc) = some di)
    (hti : cols.findIdx? (fun p => p.1 == tgt) = some ti) :
    (handleColumnDragOver (some dc) tgt cols)[ti]? = cols[di]? ∧
    (ti < di → (handleColumnDragOver (some dc) tgt cols)[ti + 1]? = cols[ti]?) ∧
    (di < ti → (handleColumnDragOver (some dc) tgt cols)[ti - 1]? = cols[ti]?) ∧
    (handleColumnDragOver (some dc) tgt cols).length = cols.length ∧
    (∀ cols' c, handleColumnDragOver (some c) c cols' = cols') ∧
    (∀ cols' d t, cols'.findIdx? (fun p => p.1 == d) = none →
      handleColumnDragOver (some d) t cols' = cols') ∧
    (∀ cols' d t, cols'.findIdx? (fun p => p.1 == t) = none →
      handleColumnDragOver (some d) t cols' = cols') := by
  have hdilt : di < cols.length := (List.findIdx?_eq_some_iff_findIdx_eq.mp hdi).1
  have htilt : ti < cols.length := (List.findIdx?_eq_some_iff_findIdx_eq.mp hti).1
  have hde : cols[di]? = some cols[di] := List.getElem?_eq_getElem hdilt
  have hbeq : (dc == tgt) = false := by simpa using hne
  have hres : handleColumnDragOver (some dc) tgt cols
      = (cols.eraseIdx di).insertIdx ti cols[di] := by
    unfold handleColumnDragOver
    simp [hbeq, hdi, hti, hde]
  have herlen : (cols.eraseIdx di).length = cols.length - 1 :=
    List.length_eraseIdx_of_lt hdilt
  refine ⟨?_, ?_, ?_, ?_, ?_, ?_, ?_⟩
  · rw [hres, getElem?_insertIdx_self_eq _ _ _ (by omega), hde]
  · intro hlt
    rw [hres, getElem?_insertIdx_shift _ _ _ _ (le_refl ti) (by omega),
      List.getElem?_eraseIdx_of_lt _ _ _ (by omega)]
  · intro hlt
    have hpos : 0 < ti := by omega
    rw [hres, getElem?_insertIdx_lt _ _ _ _ (by omega),
      List.getElem?_eraseIdx_of_ge _ _ _ (by omega)]
    congr 1
    omega
  · rw [hres, List.length_insertIdx _ _ (by omega)]
    omega
  · intro cols' c
    simp [handleColumnDragOver]
  · intro cols' d t hnone
    unfold handleColumnDragOver
    by_cases hdt : d == t
    · simp [hdt]
    · simp [hdt, hnone]
  · intro cols' d t hnone
    unfold handleColumnDragOver
    by_cases hdt : d == t
    · simp [hdt]
    · cases hd : cols'.findIdx? (fun p => p.1 == d) <;> simp [hdt, hd, hnone]

def colA : Column := { id := "a", boardId := "b", title := "A", tasks := [] }

def colB : Column := { id := "bb", boardId := "b", title := "B", tasks := [] }

def colD : Column := { id := "d", boardId := "b", title := "D", tasks := [] }

def colsThree : Columns := [("a", colA), ("bb", colB), ("d", colD)]

/-- C5 witness: dragging the last column `d` over the first column `a` puts
`d` at index 0 — the index `a` occupied — with `a` immediately after it. -/
theorem column_dragover_lands_at_target_index_witness :
    ("d" ≠ "a" ∧
     colsThree.findIdx? (fun p => p.1 == "d") = some 2 ∧
     colsThree.findIdx? (fun p => p.1 == "a") = some 0) ∧
    (handleColumnDragOver (some "d") "a" colsThree)[0]? = colsThree[2]? ∧
    (handleColumnDragOver (some "d") "a" colsThree)[1]? = colsThree[0]? := by
  have h := column_dragover_lands_at_target_index colsThree "d" "a" 2 0
    (by decide) (by decide) (by decide)
  exact ⟨⟨by decide, by decide, by decide⟩, h.1, h.2.1 (by omega)⟩

/-- C5 counterexample: with columns `[a, bb, d]`, dragging `a` over `d`
yields `[bb, d, a]` — the target `d` ends up before the dragged column, not
after it as the claim states (which would give `[bb, a, d]`). -/
theorem column_dragover_forward_inserts_after_target :
    (handleColumnDragOver (some "a") "d" colsThree).map Prod.fst = ["bb", "d", "a"] ∧
    ["bb", "d", "a"] ≠ ["bb", "a", "d"] := by
  exact ⟨by decide, by decide⟩

theorem spliceIdx_le (len : Nat) (i : Int) : spliceIdx len i ≤ len := by
  unfold spliceIdx
  split <;> omega

/-- C4 corrected: in a task drag-over, a target index greater than the
destination sequence length inserts at the end and a zero index inserts at
the front, and the operation is total (never throws) for any integer index;
but a negative index counts back from the end of the sequence — it reaches
the front only when it is `≤ -length`, and `-k` with `0 < k < length` inserts
at position `length - k`. -/
theorem task_dragover_clamps_index (cols : Columns) (dt : DraggedTask)
    (tgt : String) (ti : Int) (sc tc : Column) (taskToMove : Task)
    (hsrc : lookup cols dt.sourceColumnId = some sc)
    (htgt : lookup cols tgt = some tc)
    (hfind : sc.tasks.find? (fun t => t.id == dt.id) = some taskToMove) :
    lookup (handleTaskDragOver (some dt) tgt ti cols (.ok ())).1 tgt
      = some { tc with tasks := spliceInsert tc.tasks ti { taskToMove with columnId := tgt } } ∧
    (∀ u : Task,
      ((tc.tasks.length : Int) < ti →
        spliceInsert tc.tasks ti u = tc.tasks ++ [u]) ∧
      (ti = 0 → spliceInsert tc.tasks ti u = u :: tc.tasks) ∧
      (ti + (tc.tasks.length : Int) ≤ 0 →
        spliceInsert tc.tasks ti u = u :: tc.tasks) ∧
      (ti < 0 → 0 < ti + (tc.tasks.length : Int) →
        spliceInsert tc.tasks ti u
          = tc.tasks.insertIdx (ti + (tc.tasks.length : Int)).toNat u)) := by
  constructor
  · unfold handleTaskDragOver
    simp only [hsrc, htgt, hfind]
    exact lookup_setEntry_self _ _ _
  · intro u
    refine ⟨?_, ?_, ?_, ?_⟩
    · intro hgt
      have hidx : spliceIdx tc.tasks.length ti = tc.tasks.length := by
        unfold spliceIdx
        split <;> omega
      unfold spliceInsert
      rw [hidx]
      exact List.insertIdx_length_self _ _
    · intro h0
      have hidx : spliceIdx tc.tasks.length ti = 0 := by
        unfold spliceIdx
        split <;> omega
      unfold spliceInsert
      rw [hidx]
      exact List.insertIdx_zero _ _
    · intro hle
      have hidx : spliceIdx tc.tasks.length ti = 0 := by
        unfold spliceIdx
        split <;> omega
      unfold spliceInsert
      rw [hidx]
      exact List.insertIdx_zero _ _
    · intro hneg hpos
      have hidx : spliceIdx tc.tasks.length ti
          = (ti + (tc.tasks.length : Int)).toNat := by
        unfold spliceIdx
        split <;> omega
      unfold spliceInsert
      rw [hidx]

/-- C4 witness: with a destination column of two tasks, the out-of-range
index `7` appends at the end. -/
theorem task_dragover_clamps_index_witness :
    (lookup colsTwo "c" = some sampleColumnC ∧
     lookup colsTwo "g" = some sampleColumnG ∧
     sampleColumnC.tasks.find? (fun t => t.id == "t") = some sampleTask ∧
     ((sampleColumnG.tasks.length : Int) < 7)) ∧
    spliceInsert sampleColumnG.tasks 7 { sampleTask with columnId := "g" }
      = sampleColumnG.tasks ++ [{ sampleTask with columnId := "g" }] := by
  have h := task_dragover_clamps_index colsTwo ⟨"t", "c", 0⟩ "g" 7
    sampleColumnC sampleColumnG sampleTask (by decide) (by decide) (by decide)
  exact ⟨⟨by decide, by decide, by decide, by decide⟩,
    (h.2 { sampleTask with columnId := "g" }).1 (by decide)⟩

/-- C4 counterexample: moving a task into a two-task column at index `-1`
inserts it between the two existing tasks, not at the front as the claim
states for negative indices. -/
theorem task_dragover_negative_index_not_front :
    ((handleTaskDragOver (some ⟨"t", "c", 0⟩) "g" (-1) colsTwo (.ok ())).1.map
       (fun p => (p.1, p.2.tasks.map Task.id)))
      = [("c", []), ("g", ["t1", "t", "t2"])] ∧
    (["t1", "t", "t2"] : List String) ≠ ["t", "t1", "t2"] := by
  exact ⟨by decide, by decide⟩

/-- C1 corrected: a task drag-over between two distinct columns keeps the
dragged task in exactly one column, the target, with its `columnId` set to
the target — provided the task id occurred exactly once, in the source
column. (For a drag-over whose target is the source column itself the code
instead duplicates the task; see the counterexample.) -/
theorem task_move_unique_occurrence (cols : Columns) (dt : DraggedTask)
    (tgt : String) (ti : Int) (sc tc : Column)
    (hnd : (cols.map Prod.fst).Nodup)
    (hsrc : lookup cols dt.sourceColumnId = some sc)
    (htgt : lookup cols tgt = some tc)
    (hne : dt.sourceColumnId ≠ tgt)
    (hocc : occ sc dt.id = 1)
    (hother : ∀ p ∈ cols, p.1 ≠ dt.sourceColumnId → occ p.2 dt.id = 0) :
    (∃ tc', lookup (handleTaskDragOver (some dt) tgt ti cols (.ok ())).1 tgt
        = some tc' ∧ occ tc' dt.id = 1 ∧
        ∀ t ∈ tc'.tasks, t.id = dt.id → t.columnId = tgt) ∧
    (∀ p ∈ (handleTaskDragOver (some dt) tgt ti cols (.ok ())).1, p.1 ≠ tgt →
      occ p.2 dt.id = 0) := by
  -- the dragged task is found in the source column
  have hex : ∃ t ∈ sc.tasks, (t.id == dt.id) = true := by
    have : 0 < sc.tasks.countP (fun t => t.id == dt.id) := by
      unfold occ at hocc
      omega
    exact List.countP_pos_iff.mp this
  have hfindsome : (sc.tasks.find? (fun t => t.id == dt.id)).isSome :=
    List.find?_isSome.mpr hex
  obtain ⟨tm, hfind⟩ := Option.isSome_iff_exists.mp hfindsome
  have htmid : tm.id = dt.id := by
    have := List.find?_some hfind
    simpa using this
  -- the result of the handler
  have hres : (handleTaskDragOver (some dt) tgt ti cols (.ok ())).1
      = setEntry
          (setEntry cols dt.sourceColumnId
            { sc with tasks := sc.tasks.filter (fun t => ¬ (t.id == dt.id)) })
          tgt
          { tc with tasks := spliceInsert tc.tasks ti { tm with columnId := tgt } } := by
    unfold handleTaskDragOver
    simp only [hsrc, htgt, hfind]
  -- the target column held no copy of the dragged id beforehand
  have htc0 : occ tc dt.id = 0 :=
    hother (tgt, tc) (lookup_some_mem cols tgt tc htgt) (Ne.symm hne)
  -- the spliced target task list is a permutation of consing the moved task
  have hperm : (spliceInsert tc.tasks ti { tm with columnId := tgt }).Perm
      ({ tm with columnId := tgt } :: tc.tasks) :=
    List.perm_insertIdx _ _ (spliceIdx_le _ _)
  constructor
  · refine ⟨{ tc with tasks := spliceInsert tc.tasks ti { tm with columnId := tgt } },
      ?_, ?_, ?_⟩
    · rw [hres]
      exact lookup_setEntry_self _ _ _
    · show (spliceInsert tc.tasks ti { tm with columnId := tgt }).countP
        (fun t => t.id == dt.id) = 1
      rw [hperm.countP_eq, List.countP_cons]
      have : occ tc dt.id = tc.tasks.countP (fun t => t.id == dt.id) := rfl
      simp [htmid, ← this, htc0]
    · intro t ht htid
      have : t ∈ { tm with columnId := tgt } :: tc.tasks := hperm.mem_iff.mp ht
      rcases List.mem_cons.mp this with h | h
      · rw [h]
      · exfalso
        have hz : ∀ x ∈ tc.tasks, ¬ ((x.id == dt.id) = true) :=
          List.countP_eq_zero.mp htc0
        exact hz t h (by simp [htid])
  · intro p hp hptgt
    have hkeysrc : dt.sourceColumnId ∈ cols.map Prod.fst :=
      lookup_some_key_mem cols dt.sourceColumnId sc hsrc
    have hnd2 : ((setEntry cols dt.sourceColumnId
        { sc with tasks := sc.tasks.filter (fun t => ¬ (t.id == dt.id)) }).map
          Prod.fst).Nodup := by
      rw [keys_setEntry cols dt.sourceColumnId _ hkeysrc]
      exact hnd
    rw [hres] at hp
    rcases mem_setEntry _ tgt _ p hnd2 hp with h | h
    · exact absurd (congrArg Prod.fst h) hptgt
    · rcases mem_setEntry _ dt.sourceColumnId _ p hnd h.1 with h' | h'
      · rw [h']
        show (sc.tasks.filter (fun t => ¬ (t.id == dt.id))).countP
          (fun t => t.id == dt.id) = 0
        rw [List.countP_eq_zero]
        intro x hx
        have := (List.mem_filter.mp hx).2
        simpa using this
      · exact hother p h'.1 h'.2

/-- C1 witness: a cross-column move of task `t` from column `c` to column
`g`: afterwards `t` occurs zero times in `c` and exactly once in `g`. -/
theorem task_move_unique_occurrence_witness :
    ((colsTwo.map Prod.fst).Nodup ∧ ("c" : String) ≠ "g" ∧
      occ sampleColumnC "t" = 1) ∧
    ((∃ tc', lookup (handleTaskDragOver (some ⟨"t", "c", 0⟩) "g" 0 colsTwo
          (.ok ())).1 "g" = some tc' ∧ occ tc' "t" = 1 ∧
        ∀ t ∈ tc'.tasks, t.id = "t" → t.columnId = "g") ∧
     (∀ p ∈ (handleTaskDragOver (some ⟨"t", "c", 0⟩) "g" 0 colsTwo (.ok ())).1,
        p.1 ≠ "g" → occ p.2 "t" = 0)) := by
  exact ⟨⟨by decide, by decide, by decide⟩,
    task_move_unique_occurrence colsTwo ⟨"t", "c", 0⟩ "g" 0
      sampleColumnC sampleColumnG (by decide) (by decide) (by decide)
      (by decide) (by decide) (by decide)⟩

/-- C1 counterexample: a drag-over whose target is the source column itself
leaves the dragged task occurring twice in that column — not exactly once as
the claim asserts for any target including the source. -/
theorem task_dragover_same_column_double_occurrence :
    ((handleTaskDragOver (some ⟨"t", "c", 0⟩) "c" 0 sampleColumns (.ok ())).1.map
       (fun p => occ p.2 "t")) = [2] ∧
    sampleColumns.map (fun p => occ p.2 "t") = [1] := by
  exact ⟨by decide, by decide⟩

/-- C3: moving task `t` to its own column `c` at its own index `0` is NOT a
no-op — the code inserts a copy into the stale pre-removal snapshot of the
column and then overwrites the removal, duplicating the task. -/
theorem task_dragover_own_position_duplicates :
    ((handleTaskDragOver (some ⟨"t", "c", 0⟩) "c" 0 sampleColumns (.ok ())).1.map
       (fun p => (p.1, p.2.tasks.map Task.id))) = [("c", ["t", "t"])] ∧
    sampleColumns.map (fun p => (p.1, p.2.tasks.map Task.id)) = [("c", ["t"])] := by
  exact ⟨by decide, by decide⟩

/-- C2 witness: the pessimistic pattern instantiated at a concrete
`handleAddMember` invocation on the empty member state. -/
theorem mutations_persist_first_then_apply_witness :
    pessimistic (handleAddMember ⟨[], none⟩ ⟨"m1", "Ann", "blue"⟩) ⟨[], none⟩ :=
  mutations_persist_first_then_apply.1 ⟨[], none⟩ ⟨"m1", "Ann", "blue"⟩

/-- C2 counterexample: `handleAddMember` is not optimistic — with a failing
persistence call the member list stays empty (the claim would have the member
already applied and retained), and on success the trace shows the
persistence call strictly before the local application. -/
theorem add_member_not_applied_before_persist :
    (handleAddMember ⟨[], none⟩ ⟨"m1", "Ann", "blue"⟩ (.error ())).1.members = [] ∧
    (handleAddMember ⟨[], none⟩ ⟨"m1", "Ann", "blue"⟩
       (.ok ⟨"m1", "Ann", "blue"⟩)).2 = [Ev.persist, Ev.localApply] := by
  exact ⟨rfl, rfl⟩

end Kanban
